import Mathlib

/-!
Verification of the BulkRR file-watcher service (src/server-go/main.go).

The Go program watches a directory for CSV files, tracks each file's
processing state in a mutex-guarded map `lock : map[string]FileLock`,
and drains the files a bounded chunk (3 rows) at a time using a bounded
pool of workers, round-robin over an append-only queue.

This file gives a shallow embedding of the service state and of its
operations (`setFileStatus`, `pickNextFile`, `processFiles`, the worker
body `readFile`, `isEmptyLine`), together with theorems about them.
Concurrency is modelled by a sequential step relation: a scan tick
registers one new file, a dispatch tick runs `processFiles`, and a
worker-completion step runs the worker body atomically.
-/

namespace BulkRR

/-- `FileStatus` is a Go string type with three named constants
(`not_read`, `reading`, `completed`).  `empty` stands for the zero
value `""` of the string type, which is what indexing the `lock` map at
an untracked key yields. -/
inductive FileStatus where
  | notRead
  | reading
  | completed
  | empty
deriving DecidableEq, Repr

/-- `FileLock` from main.go: per-file status plus the count of data rows
already emitted (the resumption offset `ReadLinesNumber`). -/
structure FileLock where
  status : FileStatus
  readLinesNumber : Nat
deriving DecidableEq, Repr

/-- `MAX_CHUNK_SIZE` from main.go. -/
def MAX_CHUNK_SIZE : Nat := 3

/-- `MAX_THREADS_COUNT` from main.go. -/
def MAX_THREADS_COUNT : Int := 4

/-- The mutable fields of `FileWatcherService` that the scheduling logic
touches.  The map `lock` is modelled as a function to `Option FileLock`
(`none` = key absent); timing intervals, the folder path and the Go
channels are I/O plumbing with no bearing on the tracked state and are
not represented. -/
structure FileWatcherService where
  activeWorkers : Int
  filesQueue : List String
  lock : String → Option FileLock
  currentFileIndex : Nat
  maxThreads : Int

/-- Go map indexing `s.lock[file]`: an absent key yields the zero value
`FileLock{Status: "", ReadLinesNumber: 0}`. -/
def lockGet (m : String → Option FileLock) (file : String) : FileLock :=
  (m file).getD ⟨FileStatus.empty, 0⟩

/-- Go map assignment `s.lock[file] = v`. -/
def mapUpdate (m : String → Option FileLock) (file : String) (v : FileLock) :
    String → Option FileLock :=
  fun x => if x = file then some v else m x

/-- Status of a file as the service currently records it. -/
def statusAt (s : FileWatcherService) (file : String) : FileStatus :=
  (lockGet s.lock file).status

/-- Stored offset (`ReadLinesNumber`) of a file. -/
def offsetAt (s : FileWatcherService) (file : String) : Nat :=
  (lockGet s.lock file).readLinesNumber

/-- `setFileStatus` from main.go: under the mutex, if the current status
is `completed` and the requested one is not, log and return without
writing; otherwise store the pair `{status, readLinesNumber}`. -/
def setFileStatus (s : FileWatcherService) (file : String) (status : FileStatus)
    (readLinesNumber : Nat) : FileWatcherService :=
  if (lockGet s.lock file).status = FileStatus.completed ∧ status ≠ FileStatus.completed then
    s
  else
    { s with lock := mapUpdate s.lock file ⟨status, readLinesNumber⟩ }

/-- The scan loop of `pickNextFile` from main.go
(`for i := 0; i < len(filesQueue); i++`): probe positions
`(currentFileIndex + i) % n` in order and return the first index whose
file's status is not `completed`.  The first argument after `n` is the
number of loop iterations still allowed, the second is `i`. -/
def pickLoop (s : FileWatcherService) (n : Nat) : Nat → Nat → Option Nat
  | 0, _ => none
  | rem + 1, i =>
    let index := (s.currentFileIndex + i) % n
    if statusAt s (s.filesQueue.getD index "") ≠ FileStatus.completed then some index
    else pickLoop s n rem (i + 1)

/-- `pickNextFile` from main.go: on an empty queue return no file;
otherwise scan circularly from the cursor for at most `len(queue)`
probes; on a hit, advance the cursor to just past the hit position and
return the file.  Go returns the empty string for "no file"; that
sentinel is modelled as `none`. -/
def pickNextFile (s : FileWatcherService) : Option String × FileWatcherService :=
  if s.filesQueue.length = 0 then (none, s)
  else
    match pickLoop s s.filesQueue.length s.filesQueue.length 0 with
    | some index =>
        (some (s.filesQueue.getD index ""),
         { s with currentFileIndex := (index + 1) % s.filesQueue.length })
    | none => (none, s)

/-- `processFiles` from main.go: if the worker pool is full do nothing;
otherwise pick a file, mark it `reading` preserving its current offset,
increment the active-worker count, and start a worker on it (returned
as the second component; `none` when no worker was started). -/
def processFiles (s : FileWatcherService) : FileWatcherService × Option String :=
  if s.maxThreads ≤ s.activeWorkers then (s, none)
  else
    match pickNextFile s with
    | (some file, s') =>
        let s'' := setFileStatus s' file FileStatus.reading
          (lockGet s'.lock file).readLinesNumber
        ({ s'' with activeWorkers := s''.activeWorkers + 1 }, some file)
    | (none, s') => (s', none)

/-- One iteration of `checkForNewFiles` from main.go for a directory
entry `file` with the `.csv` extension that is not yet tracked: insert
`FileLock{not_read, 0}` and append the name to the queue. -/
def registerNewFile (s : FileWatcherService) (file : String) : FileWatcherService :=
  { s with
    lock := mapUpdate s.lock file ⟨FileStatus.notRead, 0⟩
    filesQueue := s.filesQueue ++ [file] }

/-- `NewFileWatcherService` from main.go (the tracked fields): empty
queue and map, zero workers, cursor 0. -/
def NewFileWatcherService (maxThreads : Int) : FileWatcherService :=
  { activeWorkers := 0
    filesQueue := []
    lock := fun _ => none
    currentFileIndex := 0
    maxThreads := maxThreads }

/-- `isEmptyLine` from main.go: true when every field of the record is
the empty string. -/
def isEmptyLine (record : List String) : Bool :=
  record.all (fun field => field = "")

/-- The sequence of records Go's `encoding/csv` reader hands to the
read loop before the loop's `if err != nil break` fires.  A file is
modelled as its list of raw lines, each line as its list of
comma-separated fields; a raw blank line corresponds to the single
empty field `[""]`.  The csv reader skips blank lines entirely, takes
the field count of the first returned record as `FieldsPerRecord`, and
returns `ErrFieldCount` (stopping the loop) at the first record whose
field count differs. -/
def csvRecords (lines : List (List String)) : List (List String) :=
  let nonblank := lines.filter (fun l => decide (l ≠ [""]))
  match nonblank with
  | [] => []
  | first :: _ => nonblank.takeWhile (fun l => decide (l.length = first.length))

/-- The `for` loop of `Worker.readFile` in main.go, over the record
sequence the csv reader yields.  Arguments after the stream mirror the
Go locals `readLines` (remaining skip budget), `results`, and
`tempReadLines`.  Returns `none` when the loop would panic: Go indexes
`record[0]` and `record[1]` unconditionally, an out-of-bounds access
when the record has fewer than two fields. -/
def readLoop : List (List String) → Nat → List (String × String) → Nat →
    Option (List (String × String) × Nat)
  | [], _, results, tempReadLines => some (results, tempReadLines)
  | record :: rest, readLines, results, tempReadLines =>
    if isEmptyLine record then
      readLoop rest readLines results tempReadLines
    else if 0 < readLines then
      readLoop rest (readLines - 1) results tempReadLines
    else if results.length < MAX_CHUNK_SIZE then
      if 2 ≤ record.length then
        readLoop rest readLines (results ++ [(record.getD 0 "", record.getD 1 "")])
          (tempReadLines + 1)
      else none
    else
      some (results, tempReadLines)

/-- `Worker.readFile` from main.go.  `content` is the file the worker
opens: `none` means `os.Open` failed (log, decrement `activeWorkers`,
return without touching the tracking table); `some lines` is the file's
raw lines.  The result is `none` when the read loop panics.  The append
to the result sink carries no tracked state and is not represented. -/
def readFile (s : FileWatcherService) (file : String)
    (content : Option (List (List String))) : Option FileWatcherService :=
  match content with
  | none => some { s with activeWorkers := s.activeWorkers - 1 }
  | some lines =>
    let readLines := (lockGet s.lock file).readLinesNumber
    match readLoop (csvRecords lines) readLines [] readLines with
    | none => none
    | some (results, tempReadLines) =>
      let s' :=
        if results.length < MAX_CHUNK_SIZE then
          setFileStatus s file FileStatus.completed tempReadLines
        else
          setFileStatus s file FileStatus.notRead tempReadLines
      some { s' with activeWorkers := s'.activeWorkers - 1 }

/-- Number of data rows of a file: records of the csv stream that are
not blank (these are the rows that consume skip or chunk budget). -/
def dataRowCount (lines : List (List String)) : Nat :=
  ((csvRecords lines).filter (fun r => !isEmptyLine r)).length

/-- One step of the sequential model of the two background loops and
the workers: a scan tick registers one newly seen untracked file, a
dispatch tick runs `processFiles`, and a worker-completion step runs a
worker body to completion (`content` as in `readFile`: `none` models an
open failure). -/
inductive Step : FileWatcherService → FileWatcherService → Prop where
  | discover (s : FileWatcherService) (file : String) (h : s.lock file = none) :
      Step s (registerNewFile s file)
  | dispatch (s : FileWatcherService) : Step s (processFiles s).1
  | finish (s : FileWatcherService) (file : String)
      (content : Option (List (List String))) (s' : FileWatcherService)
      (h : readFile s file content = some s') : Step s s'

/-- Reachability under `Step` from an initial state. -/
inductive Reach (init : FileWatcherService) : FileWatcherService → Prop where
  | refl : Reach init init
  | step {s s' : FileWatcherService} : Reach init s → Step s s' → Reach init s'

/-- One dispatch tick followed immediately by the dispatched worker
running to completion; `env` maps each file name to its content.
Used for the single-file chunking scenarios. -/
def tick (s : FileWatcherService) (env : String → Option (List (List String))) :
    Option FileWatcherService :=
  match processFiles s with
  | (s', some file) => readFile s' file (env file)
  | (s', none) => some s'

/-- Iterated `tick`. -/
def runTicks (s : FileWatcherService) (env : String → Option (List (List String))) :
    Nat → Option FileWatcherService
  | 0 => some s
  | k + 1 =>
    match tick s env with
    | some s' => runTicks s' env k
    | none => none

/-- A scheduling pass of `k` consecutive `pickNextFile` calls: the list
of results together with the final state. -/
def pickN (s : FileWatcherService) : Nat → List (Option String) × FileWatcherService
  | 0 => ([], s)
  | k + 1 =>
    let (r, s') := pickNextFile s
    let (rs, s'') := pickN s' k
    (r :: rs, s'')

/-- The probe positions of a circular scan: `rem` successive positions
`(start + d) % n`. -/
def cycFrom (start rem n : Nat) : List Nat :=
  (List.range rem).map (fun d => (start + d) % n)

/-- One full circle of probe positions starting at `start` in a queue of
length `n`. -/
def cyc (start n : Nat) : List Nat := cycFrom start n n

/-- Eligibility of queue position `j`: the file there is not
`completed` (the only test `pickNextFile` applies). -/
def eligB (s : FileWatcherService) (j : Nat) : Bool :=
  decide (statusAt s (s.filesQueue.getD j "") ≠ FileStatus.completed)

/-- The eligible probe positions of one full circular scan from the
stored cursor, in scan order. -/
def ridx (s : FileWatcherService) : List Nat :=
  (cyc s.currentFileIndex s.filesQueue.length).filter (eligB s)

/-- A sample state used for witnesses: one file `"a.csv"` already
`completed` at offset 7, and one file `"b.csv"` not yet read. -/
def exService : FileWatcherService :=
  { activeWorkers := 0
    filesQueue := ["a.csv", "b.csv"]
    lock := fun x =>
      if x = "a.csv" then some ⟨FileStatus.completed, 7⟩
      else if x = "b.csv" then some ⟨FileStatus.notRead, 0⟩
      else none
    currentFileIndex := 0
    maxThreads := MAX_THREADS_COUNT }

/-- A sample state used for worker theorems: file `"c.csv"` was just
dispatched (status `reading`, offset 0, one active worker). -/
def exReading : FileWatcherService :=
  { activeWorkers := 1
    filesQueue := ["c.csv"]
    lock := fun x => if x = "c.csv" then some ⟨FileStatus.reading, 0⟩ else none
    currentFileIndex := 0
    maxThreads := MAX_THREADS_COUNT }

/-- A file whose second line has the wrong field count: Go's csv reader
returns `ErrFieldCount` there, a parse failure that stops the read
loop. -/
def parseFailLines : List (List String) := [["1", "x"], ["bad"]]

/-- A file whose first (and only) record has a single non-empty field:
the csv reader accepts it (it fixes `FieldsPerRecord := 1`), and the
read loop's `record[1]` access is out of bounds. -/
def oneFieldLines : List (List String) := [["x"]]

/-- A file of 7 data rows (scenario A). -/
def fileA : List (List String) :=
  [["1", "a"], ["2", "b"], ["3", "c"], ["4", "d"], ["5", "e"], ["6", "f"], ["7", "g"]]

/-- A file of exactly 6 data rows (scenario B, a multiple of the chunk
size). -/
def fileB : List (List String) :=
  [["1", "a"], ["2", "b"], ["3", "c"], ["4", "d"], ["5", "e"], ["6", "f"]]

/-- A file containing only blank rows: raw empty lines and rows of
empty fields (scenario D). -/
def blankLines : List (List String) := [[""], ["", ""], [""], ["", ""]]

/-- The freshly started service after the scanner registers a single
file `"a.csv"`. -/
def svcA0 : FileWatcherService :=
  registerNewFile (NewFileWatcherService MAX_THREADS_COUNT) "a.csv"

/-- Environment mapping `"a.csv"` to a given content. -/
def envOf (lines : List (List String)) : String → Option (List (List String)) :=
  fun f => if f = "a.csv" then some lines else none

theorem lockGet_mapUpdate (m : String → Option FileLock) (file x : String) (v : FileLock) :
    lockGet (mapUpdate m file v) x = if x = file then v else lockGet m x := by
  by_cases h : x = file <;> simp [lockGet, mapUpdate, h]

theorem setFileStatus_activeWorkers (s : FileWatcherService) (file : String)
    (st : FileStatus) (n : Nat) :
    (setFileStatus s file st n).activeWorkers = s.activeWorkers := by
  unfold setFileStatus; split <;> rfl

theorem setFileStatus_maxThreads (s : FileWatcherService) (file : String)
    (st : FileStatus) (n : Nat) :
    (setFileStatus s file st n).maxThreads = s.maxThreads := by
  unfold setFileStatus; split <;> rfl

theorem setFileStatus_filesQueue (s : FileWatcherService) (file : String)
    (st : FileStatus) (n : Nat) :
    (setFileStatus s file st n).filesQueue = s.filesQueue := by
  unfold setFileStatus; split <;> rfl

theorem setFileStatus_currentFileIndex (s : FileWatcherService) (file : String)
    (st : FileStatus) (n : Nat) :
    (setFileStatus s file st n).currentFileIndex = s.currentFileIndex := by
  unfold setFileStatus; split <;> rfl

/-- Claim C1: for every file name and every `setFileStatus` call, if the
file's current status is `completed` and the requested status is not
`completed`, the call is a no-op leaving the whole state (in particular
both status and offset) unchanged; otherwise the call replaces the
file's record by the pair `⟨status, offset⟩` in one map write, changing
nothing else, so status and offset are never updated independently. -/
theorem setFileStatus_terminal_and_atomic (s : FileWatcherService) (file : String)
    (st : FileStatus) (n : Nat) :
    ((statusAt s file = FileStatus.completed ∧ st ≠ FileStatus.completed) →
      setFileStatus s file st n = s)
    ∧ (¬(statusAt s file = FileStatus.completed ∧ st ≠ FileStatus.completed) →
      setFileStatus s file st n =
        { s with lock := mapUpdate s.lock file ⟨st, n⟩ }) := by
  constructor
  · intro h
    unfold setFileStatus
    rw [if_pos]
    exact h
  · intro h
    unfold setFileStatus
    rw [if_neg]
    exact h

theorem setFileStatus_terminal_and_atomic_witness :
    setFileStatus exService "a.csv" FileStatus.notRead 9 = exService ∧
    setFileStatus exService "b.csv" FileStatus.reading 0 =
      { exService with lock := mapUpdate exService.lock "b.csv" ⟨FileStatus.reading, 0⟩ } :=
  ⟨(setFileStatus_terminal_and_atomic exService "a.csv" FileStatus.notRead 9).1
      (by constructor <;> decide),
   (setFileStatus_terminal_and_atomic exService "b.csv" FileStatus.reading 0).2
      (by intro h; exact absurd h.1 (by decide))⟩

/-- Claim C7 counterexample: on a parse failure (second record has the
wrong column count) the dispatched file's entry is NOT left untouched in
status `reading`: the worker runs its normal post-loop update and marks
the file `completed` with the offset advanced to 1. -/
theorem readFile_parse_failure_touches_entry :
    (readFile exReading "c.csv" (some parseFailLines)).map
        (fun t => statusAt t "c.csv") = some FileStatus.completed
    ∧ (readFile exReading "c.csv" (some parseFailLines)).map
        (fun t => offsetAt t "c.csv") = some 1
    ∧ FileStatus.completed ≠ FileStatus.reading := by
  refine ⟨?_, ?_, by decide⟩ <;> decide

/-- Claim C7 (amended): on an OPEN failure the worker logs, decrements
the active-worker count exactly once, and leaves the tracking table
untouched — the file keeps its status (`reading`) and offset, and the
worker itself does not retry.  On a PARSE failure, by contrast, the read
loop stops at the failing record as if the file had ended and the normal
status update runs, so the entry does not remain `reading` (concrete
instance: the `parseFailLines` file is marked `completed`). -/
theorem readFile_open_failure_spec (s : FileWatcherService) (file g : String) :
    readFile s file none = some { s with activeWorkers := s.activeWorkers - 1 }
    ∧ statusAt { s with activeWorkers := s.activeWorkers - 1 } g = statusAt s g
    ∧ offsetAt { s with activeWorkers := s.activeWorkers - 1 } g = offsetAt s g
    ∧ (readFile exReading "c.csv" (some parseFailLines)).map
        (fun t => statusAt t "c.csv") = some FileStatus.completed := by
  refine ⟨rfl, rfl, rfl, by decide⟩

theorem readLoop_spec (stream : List (List String))
    (h2 : ∀ r ∈ stream, isEmptyLine r = false → 2 ≤ r.length) :
    ∀ (rl : Nat) (res : List (String × String)) (t : Nat), res.length ≤ MAX_CHUNK_SIZE →
      ∃ extra : List (String × String),
        readLoop stream rl res t = some (res ++ extra, t + extra.length) ∧
        extra.length = min (MAX_CHUNK_SIZE - res.length)
          ((stream.filter (fun r => !isEmptyLine r)).length - rl) := by
  induction stream with
  | nil =>
    intro rl res t _
    refine ⟨[], by simp [readLoop], by simp⟩
  | cons r rest ih =>
    intro rl res t hres
    by_cases hblank : isEmptyLine r
    · obtain ⟨extra, heq, hlen⟩ :=
        ih (fun x hx hb => h2 x (List.mem_cons_of_mem _ hx) hb) rl res t hres
      refine ⟨extra, ?_, ?_⟩
      · rw [readLoop, if_pos hblank]; exact heq
      · simpa [hblank] using hlen
    · have hb : isEmptyLine r = false := by simpa using hblank
      by_cases hrl : 0 < rl
      · obtain ⟨extra, heq, hlen⟩ :=
          ih (fun x hx hxb => h2 x (List.mem_cons_of_mem _ hx) hxb) (rl - 1) res t hres
        refine ⟨extra, ?_, ?_⟩
        · rw [readLoop, if_neg hblank, if_pos hrl]; exact heq
        · rw [hlen]
          simp only [List.filter_cons, hb, Bool.not_false, if_pos, List.length_cons]
          omega
      · have hrl0 : rl = 0 := by omega
        subst hrl0
        by_cases hfull : res.length < MAX_CHUNK_SIZE
        · have h2r : 2 ≤ r.length := h2 r (List.mem_cons_self _ _) hb
          obtain ⟨extra, heq, hlen⟩ :=
            ih (fun x hx hxb => h2 x (List.mem_cons_of_mem _ hx) hxb) 0
              (res ++ [(r.getD 0 "", r.getD 1 "")]) (t + 1)
              (by simp only [List.length_append, List.length_cons, List.length_nil]; omega)
          refine ⟨(r.getD 0 "", r.getD 1 "") :: extra, ?_, ?_⟩
          · rw [readLoop, if_neg hblank, if_neg (by omega), if_pos hfull, if_pos h2r]
            rw [heq]
            simp only [List.append_assoc, List.cons_append, List.nil_append,
              List.length_cons]
            refine congrArg some (Prod.ext rfl ?_)
            simp only []
            omega
          · rw [List.length_cons, hlen]
            simp only [List.filter_cons, hb, Bool.not_false, if_pos, List.length_cons,
              List.length_append, List.length_nil]
            simp only [MAX_CHUNK_SIZE] at hfull ⊢
            omega
        · refine ⟨[], ?_, ?_⟩
          · rw [readLoop, if_neg hblank, if_neg (by omega), if_neg hfull]
            simp
          · simp only [List.length_nil, MAX_CHUNK_SIZE] at hres hfull ⊢
            omega

theorem readLoop_t_mono (stream : List (List String)) :
    ∀ (rl : Nat) (res : List (String × String)) (t : Nat)
      (out : List (String × String) × Nat),
      readLoop stream rl res t = some out → t ≤ out.2 := by
  induction stream with
  | nil =>
    intro rl res t out h
    rw [readLoop] at h
    cases h
    exact Nat.le_refl t
  | cons r rest ih =>
    intro rl res t out h
    by_cases hblank : isEmptyLine r
    · rw [readLoop, if_pos hblank] at h
      exact ih rl res t out h
    · by_cases hrl : 0 < rl
      · rw [readLoop, if_neg hblank, if_pos hrl] at h
        exact ih (rl - 1) res t out h
      · by_cases hfull : res.length < MAX_CHUNK_SIZE
        · rw [readLoop, if_neg hblank, if_neg hrl, if_pos hfull] at h
          by_cases h2r : 2 ≤ r.length
          · rw [if_pos h2r] at h
            exact Nat.le_trans (Nat.le_succ t)
              (ih rl (res ++ [(r.getD 0 "", r.getD 1 "")]) (t + 1) out h)
          · rw [if_neg h2r] at h
            exact absurd h (by simp)
        · rw [readLoop, if_neg hblank, if_neg hrl, if_neg hfull] at h
          cases h
          exact Nat.le_refl t

theorem readFile_eq_of_readLoop (s : FileWatcherService) (file : String)
    (lines : List (List String)) (results : List (String × String)) (temp : Nat)
    (h : readLoop (csvRecords lines) (lockGet s.lock file).readLinesNumber []
        (lockGet s.lock file).readLinesNumber = some (results, temp)) :
    readFile s file (some lines) =
      (if results.length < MAX_CHUNK_SIZE then
        some { (setFileStatus s file FileStatus.completed temp) with
          activeWorkers := (setFileStatus s file FileStatus.completed temp).activeWorkers - 1 }
      else
        some { (setFileStatus s file FileStatus.notRead temp) with
          activeWorkers := (setFileStatus s file FileStatus.notRead temp).activeWorkers - 1 }) := by
  simp only [readFile, h]
  split <;> rfl

theorem setFileStatus_write (s : FileWatcherService) (file : String) (st : FileStatus)
    (n : Nat) (h : ¬((lockGet s.lock file).status = FileStatus.completed ∧ st ≠ FileStatus.completed)) :
    statusAt (setFileStatus s file st n) file = st ∧
    offsetAt (setFileStatus s file st n) file = n := by
  unfold setFileStatus
  rw [if_neg h]
  constructor <;> simp [statusAt, offsetAt, lockGet_mapUpdate]

/-- Claim C2: a worker dispatched on a file with saved offset `o` skips
the first `o` non-blank rows, collects `k = min 3 (dataRows − o)`
further non-blank rows, and writes status and offset back together:
`completed` with offset `o + k` when `k < 3`, else `not_read` with
offset `o + k`.  Consequently (one dispatch = one scheduler tick plus
the worker running to completion) a 7-row file runs offsets 0→3→6→7 and
completes on its third dispatch, while a 6-row file is left `not_read`
at offset 6 after its second dispatch and needs a third dispatch that
collects 0 rows to become `completed` with offset unchanged at 6. -/
theorem readFile_chunk_spec (s : FileWatcherService) (file : String)
    (lines : List (List String)) (o : Nat)
    (hwf : ∀ r ∈ csvRecords lines, isEmptyLine r = false → 2 ≤ r.length)
    (hst : statusAt s file ≠ FileStatus.completed)
    (hoff : offsetAt s file = o) :
    (∃ s', readFile s file (some lines) = some s'
      ∧ offsetAt s' file = o + min MAX_CHUNK_SIZE (dataRowCount lines - o)
      ∧ statusAt s' file =
          (if min MAX_CHUNK_SIZE (dataRowCount lines - o) < MAX_CHUNK_SIZE
            then FileStatus.completed else FileStatus.notRead)
      ∧ s'.activeWorkers = s.activeWorkers - 1)
    ∧ (runTicks svcA0 (envOf fileA) 1).map
        (fun u => (statusAt u "a.csv", offsetAt u "a.csv")) = some (FileStatus.notRead, 3)
    ∧ (runTicks svcA0 (envOf fileA) 2).map
        (fun u => (statusAt u "a.csv", offsetAt u "a.csv")) = some (FileStatus.notRead, 6)
    ∧ (runTicks svcA0 (envOf fileA) 3).map
        (fun u => (statusAt u "a.csv", offsetAt u "a.csv")) = some (FileStatus.completed, 7)
    ∧ (runTicks svcA0 (envOf fileB) 1).map
        (fun u => (statusAt u "a.csv", offsetAt u "a.csv")) = some (FileStatus.notRead, 3)
    ∧ (runTicks svcA0 (envOf fileB) 2).map
        (fun u => (statusAt u "a.csv", offsetAt u "a.csv")) = some (FileStatus.notRead, 6)
    ∧ (runTicks svcA0 (envOf fileB) 3).map
        (fun u => (statusAt u "a.csv", offsetAt u "a.csv")) = some (FileStatus.completed, 6) := by
  refine ⟨?_, by decide, by decide, by decide, by decide, by decide, by decide⟩
  obtain ⟨extra, heq0, hlen⟩ := readLoop_spec (csvRecords lines) hwf o [] o
    (by simp [MAX_CHUNK_SIZE])
  have heq' : readLoop (csvRecords lines) (lockGet s.lock file).readLinesNumber []
      (lockGet s.lock file).readLinesNumber = some (extra, o + extra.length) := by
    rw [show (lockGet s.lock file).readLinesNumber = o from hoff]
    simpa using heq0
  have key := readFile_eq_of_readLoop s file lines extra (o + extra.length) heq'
  have hk : min MAX_CHUNK_SIZE (dataRowCount lines - o) = extra.length := by
    rw [hlen]; simp [dataRowCount]
  by_cases hlt : extra.length < MAX_CHUNK_SIZE
  · rw [if_pos hlt] at key
    have hw := setFileStatus_write s file FileStatus.completed (o + extra.length)
      (fun hc => hc.2 rfl)
    refine ⟨_, key, ?_, ?_, ?_⟩
    · rw [hk]; exact hw.2
    · rw [hk, if_pos hlt]; exact hw.1
    · simp [setFileStatus_activeWorkers]
  · rw [if_neg hlt] at key
    have hw := setFileStatus_write s file FileStatus.notRead (o + extra.length)
      (fun hc => hst hc.1)
    refine ⟨_, key, ?_, ?_, ?_⟩
    · rw [hk]; exact hw.2
    · rw [hk, if_neg hlt]; exact hw.1
    · simp [setFileStatus_activeWorkers]

theorem readFile_chunk_spec_witness :
    ∃ s', readFile exReading "c.csv" (some fileB) = some s'
      ∧ offsetAt s' "c.csv" = 0 + min MAX_CHUNK_SIZE (dataRowCount fileB - 0)
      ∧ statusAt s' "c.csv" =
          (if min MAX_CHUNK_SIZE (dataRowCount fileB - 0) < MAX_CHUNK_SIZE
            then FileStatus.completed else FileStatus.notRead)
      ∧ s'.activeWorkers = exReading.activeWorkers - 1 :=
  (readFile_chunk_spec exReading "c.csv" fileB 0 (by decide) (by decide) (by decide)).1

theorem csvRecords_length_eq (ls : List (List String)) :
    ∀ r₁ ∈ csvRecords ls, ∀ r₂ ∈ csvRecords ls, r₁.length = r₂.length := by
  intro r₁ h₁ r₂ h₂
  unfold csvRecords at h₁ h₂
  cases hnb : ls.filter (fun l => decide (l ≠ [""])) with
  | nil =>
    rw [hnb] at h₁
    exact absurd h₁ (List.not_mem_nil r₁)
  | cons first rest =>
    rw [hnb] at h₁ h₂
    have p₁ := List.takeWhile_prefix (l := first :: rest)
      (p := fun l => decide (l.length = first.length))
    have q₁ : decide (r₁.length = first.length) = true := by
      have := List.mem_takeWhile_imp h₁
      exact this
    have q₂ : decide (r₂.length = first.length) = true := by
      have := List.mem_takeWhile_imp h₂
      exact this
    have e₁ : r₁.length = first.length := of_decide_eq_true q₁
    have e₂ : r₂.length = first.length := of_decide_eq_true q₂
    rw [e₁, e₂]

/-- Claim C9 counterexample: the read loop CAN fault.  For the file
whose only record is the single non-empty field `["x"]`, Go's csv
reader accepts the record (it fixes `FieldsPerRecord := 1`), the row is
not blank and not skipped, and the loop's `record[1]` access is out of
bounds — modelled as the loop (and the whole worker body) returning
`none`. -/
theorem readLoop_one_field_faults :
    readFile exReading "c.csv" (some oneFieldLines) = none
    ∧ readLoop (csvRecords oneFieldLines) 0 [] 0 = none
    ∧ isEmptyLine ["x"] = false := by
  refine ⟨rfl, rfl, by decide⟩

/-- Claim C9 (amended): a malformed row whose field count differs from
the first record's is defensively handled: the csv reader stops the
read loop there (`ErrFieldCount`), so the row never reaches the loop
and consumes neither the offset-skip budget nor the chunk budget — all
records the loop ever sees have the first record's field count, and for
a file whose records all carry at least two fields the loop never
faults.  But a row with FEWER than two fields that matches the first
record's field count (in particular, a first record with one field) IS
processed and faults on the out-of-bounds `record[1]` access. -/
theorem csv_malformed_row_defensive (s : FileWatcherService) (file : String)
    (lines : List (List String))
    (hwf : ∀ r ∈ csvRecords lines, isEmptyLine r = false → 2 ≤ r.length) :
    (∃ s', readFile s file (some lines) = some s')
    ∧ (∀ ls : List (List String), ∀ r₁ ∈ csvRecords ls, ∀ r₂ ∈ csvRecords ls,
        r₁.length = r₂.length)
    ∧ csvRecords parseFailLines = [["1", "x"]]
    ∧ readFile exReading "c.csv" (some oneFieldLines) = none := by
  refine ⟨?_, csvRecords_length_eq, by decide, rfl⟩
  obtain ⟨extra, heq0, _⟩ := readLoop_spec (csvRecords lines) hwf
    (lockGet s.lock file).readLinesNumber [] (lockGet s.lock file).readLinesNumber
    (by simp [MAX_CHUNK_SIZE])
  have key := readFile_eq_of_readLoop s file lines ([] ++ extra)
    ((lockGet s.lock file).readLinesNumber + extra.length) heq0
  rw [key]
  split
  · exact ⟨_, rfl⟩
  · exact ⟨_, rfl⟩

theorem csv_malformed_row_defensive_witness :
    ∃ s', readFile exReading "c.csv" (some fileA) = some s' :=
  (csv_malformed_row_defensive exReading "c.csv" fileA (by decide)).1

/-- Claim C10: a blank record (all fields empty) is skipped by the read
loop without consuming the offset-skip budget or the chunk budget (the
loop state is passed through unchanged), and a raw blank line does not
even reach the loop (the csv reader drops it).  Hence a file containing
only blank rows collects 0 rows on its first dispatch and is
immediately marked `completed` at offset 0. -/
theorem blank_rows_skipped (record : List String) (rest : List (List String))
    (rl : Nat) (res : List (String × String)) (t : Nat)
    (hb : isEmptyLine record = true) :
    readLoop (record :: rest) rl res t = readLoop rest rl res t
    ∧ (∀ ls : List (List String), [""] ∉ csvRecords ls)
    ∧ (runTicks svcA0 (envOf blankLines) 1).map
        (fun u => (statusAt u "a.csv", offsetAt u "a.csv")) = some (FileStatus.completed, 0) := by
  refine ⟨?_, ?_, by decide⟩
  · rw [readLoop, if_pos hb]
  · intro ls hmem
    unfold csvRecords at hmem
    cases hnb : ls.filter (fun l => decide (l ≠ [""])) with
    | nil =>
      rw [hnb] at hmem
      exact absurd hmem (List.not_mem_nil _)
    | cons first rest' =>
      rw [hnb] at hmem
      have h1 : ([""] : List String) ∈ first :: rest' :=
        (List.takeWhile_prefix _).subset hmem
      have h2 : ([""] : List String) ∈ ls.filter (fun l => decide (l ≠ [""])) := by
        rw [hnb]; exact h1
      have h3 := List.of_mem_filter h2
      simp at h3

theorem blank_rows_skipped_witness :
    readLoop [["", ""], ["1", "x"]] 2 [] 5 = readLoop [["1", "x"]] 2 [] 5
    ∧ (∀ ls : List (List String), [""] ∉ csvRecords ls)
    ∧ (runTicks svcA0 (envOf blankLines) 1).map
        (fun u => (statusAt u "a.csv", offsetAt u "a.csv")) = some (FileStatus.completed, 0) :=
  blank_rows_skipped ["", ""] [["1", "x"]] 2 [] 5 (by decide)

theorem pickLoop_none_iff (s : FileWatcherService) (n : Nat) :
    ∀ (rem i : Nat), pickLoop s n rem i = none ↔
      ∀ d < rem, statusAt s
        (s.filesQueue.getD ((s.currentFileIndex + i + d) % n) "") = FileStatus.completed := by
  intro rem
  induction rem with
  | zero => intro i; simp [pickLoop]
  | succ rem ih =>
    intro i
    simp only [pickLoop]
    by_cases h : statusAt s
        (s.filesQueue.getD ((s.currentFileIndex + i) % n) "") ≠ FileStatus.completed
    · rw [if_pos h]
      simp only [reduceCtorEq, false_iff, not_forall]
      exact ⟨0, by omega, h⟩
    · rw [if_neg h, ih (i + 1)]
      constructor
      · intro hall d hd
        match d with
        | 0 => exact not_ne_iff.mp h
        | e + 1 =>
          rw [show s.currentFileIndex + i + (e + 1) = s.currentFileIndex + (i + 1) + e by omega]
          exact hall e (by omega)
      · intro hall d hd
        rw [show s.currentFileIndex + (i + 1) + d = s.currentFileIndex + i + (d + 1) by omega]
        exact hall (d + 1) (by omega)

theorem pickLoop_some (s : FileWatcherService) (n : Nat) :
    ∀ (rem i idx : Nat), pickLoop s n rem i = some idx →
      ∃ d, d < rem ∧ idx = (s.currentFileIndex + i + d) % n ∧
        statusAt s (s.filesQueue.getD idx "") ≠ FileStatus.completed ∧
        ∀ e < d, statusAt s
          (s.filesQueue.getD ((s.currentFileIndex + i + e) % n) "") = FileStatus.completed := by
  intro rem
  induction rem with
  | zero => intro i idx h; exact absurd h (by simp [pickLoop])
  | succ rem ih =>
    intro i idx h
    simp only [pickLoop] at h
    by_cases hc : statusAt s
        (s.filesQueue.getD ((s.currentFileIndex + i) % n) "") ≠ FileStatus.completed
    · rw [if_pos hc] at h
      cases h
      exact ⟨0, by omega, rfl, hc, fun e he => absurd he (by omega)⟩
    · rw [if_neg hc] at h
      obtain ⟨d, hd, hidx, hne, hmin⟩ := ih (i + 1) idx h
      refine ⟨d + 1, by omega, ?_, hne, ?_⟩
      · rw [hidx, show s.currentFileIndex + (i + 1) + d = s.currentFileIndex + i + (d + 1) by omega]
      · intro e he
        match e with
        | 0 => exact not_ne_iff.mp hc
        | e' + 1 =>
          rw [show s.currentFileIndex + i + (e' + 1) = s.currentFileIndex + (i + 1) + e' by omega]
          exact hmin e' (by omega)

theorem exists_probe (n c j : Nat) (hn : 0 < n) (hj : j < n) :
    ∃ d, d < n ∧ (c + d) % n = j := by
  refine ⟨(n - c % n + j) % n, Nat.mod_lt _ hn, ?_⟩
  rw [Nat.add_mod_mod]
  have ha : c % n < n := Nat.mod_lt _ hn
  have hc : n * (c / n) + c % n = c := Nat.div_add_mod c n
  have e : c + (n - c % n + j) = n * (c / n + 1) + j := by
    rw [Nat.mul_add, Nat.mul_one]
    omega
  rw [e, Nat.mul_add_mod]
  exact Nat.mod_eq_of_lt hj

/-- Claim C3: `pickNextFile` scans the queue circularly from the stored
cursor for at most `length(queue)` probes and returns the first file
whose status is not `completed`, advancing the cursor to just past that
file's position (probe `i` is minimal: every earlier probe saw a
`completed` file); it returns no file — leaving the state untouched —
exactly when the queue is empty or every queued file is `completed`. -/
theorem pickNextFile_spec (s : FileWatcherService) :
    ((pickNextFile s).1 = none ↔ ∀ f ∈ s.filesQueue, statusAt s f = FileStatus.completed)
    ∧ ((pickNextFile s).1 = none → (pickNextFile s).2 = s)
    ∧ (∀ f, (pickNextFile s).1 = some f →
        ∃ i, i < s.filesQueue.length ∧
          f = s.filesQueue.getD ((s.currentFileIndex + i) % s.filesQueue.length) "" ∧
          statusAt s f ≠ FileStatus.completed ∧
          (∀ j < i, statusAt s
            (s.filesQueue.getD ((s.currentFileIndex + j) % s.filesQueue.length) "")
              = FileStatus.completed) ∧
          (pickNextFile s).2 = { s with currentFileIndex :=
            (((s.currentFileIndex + i) % s.filesQueue.length) + 1) % s.filesQueue.length }) := by
  by_cases hn : s.filesQueue.length = 0
  · have hq : s.filesQueue = [] := List.length_eq_zero.mp hn
    constructor
    · simp [pickNextFile, hn, hq]
    · constructor
      · intro _
        simp [pickNextFile, hn]
      · intro f hf
        rw [pickNextFile, if_pos hn] at hf
        exact absurd hf (by simp)
  · have hpos : 0 < s.filesQueue.length := Nat.pos_of_ne_zero hn
    cases hpl : pickLoop s s.filesQueue.length s.filesQueue.length 0 with
    | none =>
      have hnone : (pickNextFile s).1 = none ∧ (pickNextFile s).2 = s := by
        rw [pickNextFile, if_neg hn, hpl]
        exact ⟨rfl, rfl⟩
      refine ⟨?_, fun _ => hnone.2, ?_⟩
      · rw [hnone.1]
        simp only [true_iff]
        intro f hf
        obtain ⟨j, hj, hgetj⟩ := List.mem_iff_getElem.mp hf
        obtain ⟨d, hd, hdj⟩ := exists_probe s.filesQueue.length s.currentFileIndex j hpos hj
        have := (pickLoop_none_iff s s.filesQueue.length s.filesQueue.length 0).mp hpl d hd
        rw [show s.currentFileIndex + 0 + d = s.currentFileIndex + d by omega, hdj,
          List.getD_eq_getElem _ _ hj, hgetj] at this
        exact this
      · intro f hf
        rw [hnone.1] at hf
        exact absurd hf (by simp)
    | some idx =>
      obtain ⟨d, hd, hidx, hne, hmin⟩ :=
        pickLoop_some s s.filesQueue.length s.filesQueue.length 0 idx hpl
      have hpick1 : (pickNextFile s).1 = some (s.filesQueue.getD idx "") := by
        rw [pickNextFile, if_neg hn, hpl]
      have hpick2 : (pickNextFile s).2 =
          { s with currentFileIndex := (idx + 1) % s.filesQueue.length } := by
        rw [pickNextFile, if_neg hn, hpl]
      refine ⟨?_, ?_, ?_⟩
      · rw [hpick1]
        simp only [reduceCtorEq, false_iff, not_forall]
        refine ⟨s.filesQueue.getD idx "", ?_, ?_⟩
        · have hidxlt : idx < s.filesQueue.length := by
            rw [hidx]; exact Nat.mod_lt _ hpos
          rw [List.getD_eq_getElem _ _ hidxlt]
          exact List.getElem_mem hidxlt
        · exact hne
      · intro hcontra
        rw [hpick1] at hcontra
        exact absurd hcontra (by simp)
      · intro f hf
        rw [hpick1] at hf
        have hfe : f = s.filesQueue.getD idx "" := (Option.some.injEq _ _).mp hf.symm
        refine ⟨d, hd, ?_, ?_, ?_, ?_⟩
        · rw [hfe, hidx]
          rw [show s.currentFileIndex + 0 + d = s.currentFileIndex + d by omega]
        · rw [hfe]; exact hne
        · intro j hj
          have := hmin j hj
          rw [show s.currentFileIndex + 0 + j = s.currentFileIndex + j by omega] at this
          exact this
        · rw [hpick2, hidx,
            show s.currentFileIndex + 0 + d = s.currentFileIndex + d by omega]

theorem pickNextFile_spec_witness :
    ((pickNextFile exReading).1 = none ↔
      ∀ f ∈ exReading.filesQueue, statusAt exReading f = FileStatus.completed) ∧
    ∃ i, i < exReading.filesQueue.length ∧
      "c.csv" = exReading.filesQueue.getD
        ((exReading.currentFileIndex + i) % exReading.filesQueue.length) "" ∧
      statusAt exReading "c.csv" ≠ FileStatus.completed ∧
      (∀ j < i, statusAt exReading
        (exReading.filesQueue.getD
          ((exReading.currentFileIndex + j) % exReading.filesQueue.length) "")
            = FileStatus.completed) ∧
      (pickNextFile exReading).2 = { exReading with currentFileIndex :=
        (((exReading.currentFileIndex + i) % exReading.filesQueue.length) + 1)
          % exReading.filesQueue.length } :=
  ⟨(pickNextFile_spec exReading).1,
   (pickNextFile_spec exReading).2.2 "c.csv" (by decide)⟩

/-- Claim C8: `pickNextFile`'s only ineligibility test is
`status = completed`, so a file in status `reading` is eligible.
Concretely: starting from the fresh service, after registering
`"a.csv"` and one dispatch tick (a reachable state), the file is
`reading` with one worker in flight and spare capacity, and the next
dispatch tick picks the SAME file again, starting a second concurrent
worker on it with the same saved offset 0. -/
theorem pickNextFile_reading_eligible :
    statusAt (processFiles svcA0).1 "a.csv" = FileStatus.reading
    ∧ (processFiles svcA0).1.activeWorkers = 1
    ∧ (processFiles svcA0).1.activeWorkers < (processFiles svcA0).1.maxThreads
    ∧ offsetAt (processFiles svcA0).1 "a.csv" = 0
    ∧ (processFiles (processFiles svcA0).1).2 = some "a.csv"
    ∧ (processFiles (processFiles svcA0).1).1.activeWorkers = 2
    ∧ offsetAt (processFiles (processFiles svcA0).1).1 "a.csv" = 0
    ∧ Reach (NewFileWatcherService MAX_THREADS_COUNT) (processFiles svcA0).1
    ∧ (∀ (s : FileWatcherService) (f : String), s.filesQueue = [f] →
        statusAt s f = FileStatus.reading → s.activeWorkers < s.maxThreads →
        (processFiles s).2 = some f) := by
  refine ⟨by decide, by decide, by decide, by decide, by decide, by decide, by decide, ?_, ?_⟩
  · exact Reach.step (Reach.step Reach.refl (Step.discover _ "a.csv" rfl)) (Step.dispatch _)
  · intro s f hq hst hlt
    have hn : s.filesQueue.length ≠ 0 := by rw [hq]; simp
    cases hpl : pickLoop s s.filesQueue.length s.filesQueue.length 0 with
    | none =>
      have := (pickLoop_none_iff s s.filesQueue.length s.filesQueue.length 0).mp hpl 0
        (by omega)
      rw [show s.currentFileIndex + 0 + 0 = s.currentFileIndex by omega, hq] at this
      have h1 : (s.currentFileIndex % 1) = 0 := Nat.mod_one _
      simp only [List.length_cons, List.length_nil, Nat.zero_add] at this
      rw [h1, List.getD_cons_zero, hst] at this
      exact absurd this (by decide)
    | some idx =>
      obtain ⟨d, hd, hidx, hne, _⟩ :=
        pickLoop_some s s.filesQueue.length s.filesQueue.length 0 idx hpl
      have hq1 : s.filesQueue.length = 1 := by rw [hq]; rfl
      have hidx0 : idx = 0 := by rw [hidx, hq1]; exact Nat.mod_one _
      have hfile : s.filesQueue.getD idx "" = f := by
        rw [hidx0, hq, List.getD_cons_zero]
      have hpick : pickNextFile s =
          (some f, { s with currentFileIndex := (idx + 1) % s.filesQueue.length }) := by
        rw [pickNextFile, if_neg hn, hpl]
        exact Prod.ext (congrArg some hfile) rfl
      rw [processFiles, if_neg (not_le.mpr hlt), hpick]

theorem pickNextFile_reading_eligible_witness :
    (processFiles (processFiles svcA0).1).2 = some "a.csv" :=
  pickNextFile_reading_eligible.2.2.2.2.2.2.2.2 (processFiles svcA0).1 "a.csv"
    (by decide) (by decide) (by decide)

theorem pickNextFile_preserves (s : FileWatcherService) :
    (pickNextFile s).2.activeWorkers = s.activeWorkers ∧
    (pickNextFile s).2.maxThreads = s.maxThreads ∧
    (pickNextFile s).2.lock = s.lock ∧
    (pickNextFile s).2.filesQueue = s.filesQueue := by
  unfold pickNextFile
  split
  · exact ⟨rfl, rfl, rfl, rfl⟩
  · split
    · exact ⟨rfl, rfl, rfl, rfl⟩
    · exact ⟨rfl, rfl, rfl, rfl⟩

theorem offsetAt_setFileStatus_same (s : FileWatcherService) (file : String)
    (st : FileStatus) (g : String) :
    offsetAt (setFileStatus s file st (offsetAt s file)) g = offsetAt s g := by
  unfold setFileStatus
  split
  · rfl
  · by_cases hg : g = file
    · subst hg
      simp [offsetAt, lockGet_mapUpdate]
    · simp [offsetAt, lockGet_mapUpdate, hg]

theorem processFiles_analysis (s : FileWatcherService) :
    (s.maxThreads ≤ s.activeWorkers → processFiles s = (s, none))
    ∧ (processFiles s).1.maxThreads = s.maxThreads
    ∧ ((processFiles s).1.activeWorkers = s.activeWorkers ∨
        ((processFiles s).1.activeWorkers = s.activeWorkers + 1 ∧
          s.activeWorkers < s.maxThreads))
    ∧ (∀ g, offsetAt (processFiles s).1 g = offsetAt s g) := by
  by_cases hcap : s.maxThreads ≤ s.activeWorkers
  · rw [processFiles, if_pos hcap]
    exact ⟨fun _ => rfl, rfl, Or.inl rfl, fun g => rfl⟩
  · have hpre := pickNextFile_preserves s
    cases hp : pickNextFile s with
    | mk r s' =>
      rw [hp] at hpre
      cases r with
      | none =>
        rw [processFiles, if_neg hcap, hp]
        refine ⟨fun h => absurd h hcap, hpre.2.1, Or.inl hpre.1, fun g => ?_⟩
        show (lockGet s'.lock g).readLinesNumber = (lockGet s.lock g).readLinesNumber
        rw [hpre.2.2.1]
      | some file =>
        rw [processFiles, if_neg hcap, hp]
        refine ⟨fun h => absurd h hcap, ?_, ?_, ?_⟩
        · show (setFileStatus s' file FileStatus.reading
            (lockGet s'.lock file).readLinesNumber).maxThreads = s.maxThreads
          rw [setFileStatus_maxThreads]
          exact hpre.2.1
        · refine Or.inr ⟨?_, not_le.mp hcap⟩
          show (setFileStatus s' file FileStatus.reading
            (lockGet s'.lock file).readLinesNumber).activeWorkers + 1 = s.activeWorkers + 1
          rw [setFileStatus_activeWorkers, hpre.1]
        · intro g
          show offsetAt (setFileStatus s' file FileStatus.reading
            (lockGet s'.lock file).readLinesNumber) g = offsetAt s g
          have h1 := offsetAt_setFileStatus_same s' file FileStatus.reading g
          have h2 : offsetAt s' g = offsetAt s g := by
            show (lockGet s'.lock g).readLinesNumber = (lockGet s.lock g).readLinesNumber
            rw [hpre.2.2.1]
          exact h1.trans h2

theorem readFile_decrements (s : FileWatcherService) (file : String)
    (content : Option (List (List String))) (s' : FileWatcherService)
    (h : readFile s file content = some s') :
    s'.activeWorkers = s.activeWorkers - 1 ∧ s'.maxThreads = s.maxThreads ∧
    s'.filesQueue = s.filesQueue ∧ (∀ g, offsetAt s g ≤ offsetAt s' g) := by
  cases content with
  | none =>
    cases h
    exact ⟨rfl, rfl, rfl, fun g => Nat.le_refl _⟩
  | some lines =>
    simp only [readFile] at h
    cases hl : readLoop (csvRecords lines) (lockGet s.lock file).readLinesNumber []
        (lockGet s.lock file).readLinesNumber with
    | none => rw [hl] at h; exact absurd h (by simp)
    | some out =>
      rw [hl] at h
      obtain ⟨results, temp⟩ := out
      have htemp : (lockGet s.lock file).readLinesNumber ≤ temp :=
        readLoop_t_mono (csvRecords lines) _ _ _ (results, temp) hl
      have hs' : s' = (let u := if results.length < MAX_CHUNK_SIZE then
            setFileStatus s file FileStatus.completed temp
          else setFileStatus s file FileStatus.notRead temp
          { u with activeWorkers := u.activeWorkers - 1 }) := (Option.some.inj h).symm
      have hoff : ∀ (st : FileStatus) (g : String),
          offsetAt s g ≤ offsetAt (setFileStatus s file st temp) g := by
        intro st g
        unfold setFileStatus
        split
        · exact Nat.le_refl _
        · by_cases hg : g = file
          · subst hg
            have : offsetAt { s with lock := mapUpdate s.lock g ⟨st, temp⟩ } g = temp := by
              simp [offsetAt, lockGet_mapUpdate]
            rw [this]
            exact htemp
          · have : offsetAt { s with lock := mapUpdate s.lock file ⟨st, temp⟩ } g
                = offsetAt s g := by
              simp [offsetAt, lockGet_mapUpdate, hg]
            rw [this]
      rw [hs']
      refine ⟨?_, ?_, ?_, ?_⟩
      · show (if results.length < MAX_CHUNK_SIZE then
            setFileStatus s file FileStatus.completed temp
          else setFileStatus s file FileStatus.notRead temp).activeWorkers - 1
            = s.activeWorkers - 1
        split <;> rw [setFileStatus_activeWorkers]
      · show (if results.length < MAX_CHUNK_SIZE then
            setFileStatus s file FileStatus.completed temp
          else setFileStatus s file FileStatus.notRead temp).maxThreads = s.maxThreads
        split <;> rw [setFileStatus_maxThreads]
      · show (if results.length < MAX_CHUNK_SIZE then
            setFileStatus s file FileStatus.completed temp
          else setFileStatus s file FileStatus.notRead temp).filesQueue = s.filesQueue
        split <;> rw [setFileStatus_filesQueue]
      · intro g
        show offsetAt s g ≤ offsetAt (if results.length < MAX_CHUNK_SIZE then
            setFileStatus s file FileStatus.completed temp
          else setFileStatus s file FileStatus.notRead temp) g
        split
        · exact hoff FileStatus.completed g
        · exact hoff FileStatus.notRead g

/-- Claim C4: in every state reachable by the sequential step relation
(scan tick, dispatch tick, worker completion or failure) from an
initial state satisfying the bound, the active-worker count is at most
`maxThreads`; a dispatch tick does nothing at all when
`activeWorkers ≥ maxThreads`, and otherwise increases the count by at
most one (one file dispatched per tick). -/
theorem activeWorkers_bounded (init s : FileWatcherService)
    (h0 : init.activeWorkers ≤ init.maxThreads) (hr : Reach init s) :
    s.activeWorkers ≤ s.maxThreads
    ∧ (s.maxThreads ≤ s.activeWorkers → processFiles s = (s, none))
    ∧ (processFiles s).1.activeWorkers ≤ s.activeWorkers + 1 := by
  have hstep1 : ∀ a b, Step a b → a.activeWorkers ≤ a.maxThreads →
      b.activeWorkers ≤ b.maxThreads := by
    intro a b hs hle
    cases hs with
    | discover file h => exact hle
    | dispatch =>
      obtain ⟨_, hmax, hw, _⟩ := processFiles_analysis a
      rcases hw with h1 | ⟨h1, h2⟩
      · rw [h1, hmax]; exact hle
      · rw [h1, hmax]; omega
    | finish file content s2 h =>
      obtain ⟨ha, hm, _, _⟩ := readFile_decrements a file content b h
      rw [ha, hm]; omega
  have hmain : s.activeWorkers ≤ s.maxThreads := by
    induction hr with
    | refl => exact h0
    | step hr' hs ih => exact hstep1 _ _ hs ih
  refine ⟨hmain, (processFiles_analysis s).1, ?_⟩
  obtain ⟨_, _, hw, _⟩ := processFiles_analysis s
  rcases hw with h1 | ⟨h1, _⟩ <;> omega

theorem activeWorkers_bounded_witness :
    (processFiles svcA0).1.activeWorkers ≤ (processFiles svcA0).1.maxThreads
    ∧ ((processFiles svcA0).1.maxThreads ≤ (processFiles svcA0).1.activeWorkers →
        processFiles (processFiles svcA0).1 = ((processFiles svcA0).1, none))
    ∧ (processFiles (processFiles svcA0).1).1.activeWorkers ≤
        (processFiles svcA0).1.activeWorkers + 1 :=
  activeWorkers_bounded (NewFileWatcherService MAX_THREADS_COUNT) (processFiles svcA0).1
    (by decide)
    (Reach.step (Reach.step Reach.refl (Step.discover _ "a.csv" rfl)) (Step.dispatch _))

/-- Claim C5: the stored offset of every tracked file is monotonically
non-decreasing: every step of the sequential model (file discovery,
dispatch tick, worker completion or failure) can only keep or increase
each file's offset — a finishing worker writes back the old offset plus
the rows it collected, and the scheduler's mark-`reading` write
preserves every offset exactly — and hence offsets are non-decreasing
along every reachable execution. -/
theorem offset_monotone (init s s' : FileWatcherService) :
    (Step s s' → ∀ g, offsetAt s g ≤ offsetAt s' g)
    ∧ (∀ g, offsetAt (processFiles s).1 g = offsetAt s g)
    ∧ (Reach init s → ∀ g, offsetAt init g ≤ offsetAt s g) := by
  have hstep : ∀ (a b : FileWatcherService), Step a b → ∀ g, offsetAt a g ≤ offsetAt b g := by
    intro a b hs g
    cases hs with
    | discover file h =>
      by_cases hg : g = file
      · subst hg
        have h0 : offsetAt a g = 0 := by
          unfold offsetAt lockGet
          rw [h]
          rfl
        rw [h0]
        exact Nat.zero_le _
      · have heq : offsetAt (registerNewFile a file) g = offsetAt a g := by
          simp [registerNewFile, offsetAt, lockGet_mapUpdate, hg]
        rw [heq]
    | dispatch =>
      rw [(processFiles_analysis a).2.2.2 g]
    | finish file content s2 h =>
      exact (readFile_decrements a file content b h).2.2.2 g
  refine ⟨hstep s s', (processFiles_analysis s).2.2.2, ?_⟩
  intro hr g
  induction hr with
  | refl => exact Nat.le_refl _
  | step hr' hs ih => exact Nat.le_trans ih (hstep _ _ hs g)

theorem offset_monotone_witness :
    (∀ g, offsetAt svcA0 g ≤ offsetAt (processFiles svcA0).1 g)
    ∧ (∀ g, offsetAt (NewFileWatcherService MAX_THREADS_COUNT) g ≤ offsetAt svcA0 g) :=
  ⟨(offset_monotone svcA0 svcA0 (processFiles svcA0).1).1 (Step.dispatch svcA0),
   (offset_monotone (NewFileWatcherService MAX_THREADS_COUNT) svcA0 svcA0).2.2
     (Reach.step Reach.refl (Step.discover _ "a.csv" rfl))⟩

theorem cycFrom_length (a rem n : Nat) : (cycFrom a rem n).length = rem := by
  unfold cycFrom
  rw [List.length_map, List.length_range]

theorem cycFrom_succ (a rem n : Nat) :
    cycFrom a (rem + 1) n = (a % n) :: cycFrom (a + 1) rem n := by
  unfold cycFrom
  rw [List.range_succ_eq_map, List.map_cons, List.map_map]
  have h0 : (a + 0) % n = a % n := by rw [Nat.add_zero]
  rw [h0]
  congr 1
  apply List.map_congr_left
  intro d _
  show (a + (d + 1)) % n = (a + 1 + d) % n
  congr 1
  omega

theorem cycFrom_append (a rem n : Nat) :
    cycFrom a (rem + 1) n = cycFrom a rem n ++ [(a + rem) % n] := by
  unfold cycFrom
  rw [List.range_succ, List.map_append]
  rfl

theorem cycFrom_mod_add (a x rem n : Nat) :
    cycFrom (a % n + x) rem n = cycFrom (a + x) rem n := by
  unfold cycFrom
  apply List.map_congr_left
  intro d _
  show (a % n + x + d) % n = (a + x + d) % n
  rw [Nat.add_assoc, Nat.mod_add_mod, ← Nat.add_assoc]

theorem cyc_mod (a n : Nat) : cyc (a % n) n = cyc a n := by
  unfold cyc
  have h1 := cycFrom_mod_add a 0 n n
  rw [Nat.add_zero, Nat.add_zero] at h1
  exact h1

theorem cyc_rot1 (a n : Nat) (hn : 0 < n) :
    cyc (a + 1) n = (cyc a n).tail ++ [a % n] := by
  obtain ⟨m, rfl⟩ : ∃ m, n = m + 1 := ⟨n - 1, by omega⟩
  show cycFrom (a + 1) (m + 1) (m + 1) =
    (cycFrom a (m + 1) (m + 1)).tail ++ [a % (m + 1)]
  rw [show cycFrom a (m + 1) (m + 1) = (a % (m + 1)) :: cycFrom (a + 1) m (m + 1)
      from cycFrom_succ a m (m + 1)]
  rw [List.tail_cons, cycFrom_append (a + 1) m (m + 1)]
  congr 2
  rw [show a + 1 + m = a + (m + 1) by omega]
  exact Nat.add_mod_right a (m + 1)

theorem cyc_rotk (a n : Nat) (hn : 0 < n) :
    ∀ k, k ≤ n → cyc (a + k) n = (cyc a n).drop k ++ (cyc a n).take k := by
  intro k
  induction k with
  | zero => simp
  | succ k ih =>
    intro hk
    have hlen : (cyc a n).length = n := cycFrom_length a n n
    have hne : (cyc a n).drop k ≠ [] := by
      intro hcontra
      have := List.drop_eq_nil_iff.mp hcontra
      omega
    rw [show a + (k + 1) = (a + k) + 1 by omega, cyc_rot1 (a + k) n hn, ih (by omega)]
    have e1 : ((cyc a n).drop k ++ (cyc a n).take k).tail =
        ((cyc a n).drop k).tail ++ (cyc a n).take k := by
      obtain ⟨x, xs, hx⟩ := List.exists_cons_of_ne_nil hne
      rw [hx]
      rfl
    rw [e1, List.tail_drop, List.append_assoc]
    congr 1
    rw [List.take_succ]
    congr 1
    have hget : (cyc a n)[k]? = some ((a + k) % n) := by
      show (cycFrom a n n)[k]?  = some ((a + k) % n)
      unfold cycFrom
      rw [List.getElem?_map, List.getElem?_range (by omega)]
      rfl
    rw [hget]
    rfl

theorem cyc_zero (n : Nat) : cyc 0 n = List.range n := by
  unfold cyc cycFrom
  have h : ∀ d ∈ List.range n, (0 + d) % n = d := by
    intro d hd
    rw [Nat.zero_add]
    exact Nat.mod_eq_of_lt (List.mem_range.mp hd)
  rw [List.map_congr_left h]
  simp

theorem cyc_perm (a n : Nat) : (cyc a n).Perm (List.range n) := by
  cases Nat.eq_zero_or_pos n with
  | inl h => subst h; simp [cyc, cycFrom]
  | inr hn =>
    have h1 : cyc a n = cyc (a % n) n := (cyc_mod a n).symm
    have h2 : cyc (a % n) n = (cyc 0 n).drop (a % n) ++ (cyc 0 n).take (a % n) := by
      have h3 := cyc_rotk 0 n hn (a % n) (Nat.le_of_lt (Nat.mod_lt _ hn))
      rw [Nat.zero_add] at h3
      exact h3
    rw [h1, h2, cyc_zero]
    have h4 := @List.perm_append_comm Nat
      ((List.range n).drop (a % n)) ((List.range n).take (a % n))
    have h5 : (List.range n).take (a % n) ++ (List.range n).drop (a % n) = List.range n :=
      List.take_append_drop _ _
    have h6 : ((List.range n).take (a % n) ++ (List.range n).drop (a % n)).Perm
        (List.range n) := by
      rw [h5]
    exact List.Perm.trans h4 h6

theorem mem_cyc (a n j : Nat) : j ∈ cyc a n ↔ j < n := by
  rw [(cyc_perm a n).mem_iff, List.mem_range]

theorem cyc_nodup (a n : Nat) : (cyc a n).Nodup :=
  ((cyc_perm a n).nodup_iff).mpr (List.nodup_range n)

theorem pickLoop_eq_head (s : FileWatcherService) (n : Nat) :
    ∀ rem i, pickLoop s n rem i =
      ((cycFrom (s.currentFileIndex + i) rem n).filter (eligB s)).head? := by
  intro rem
  induction rem with
  | zero => intro i; simp [pickLoop, cycFrom]
  | succ rem ih =>
    intro i
    simp only [pickLoop]
    rw [cycFrom_succ, List.filter_cons]
    by_cases h : eligB s ((s.currentFileIndex + i) % n)
    · rw [if_pos (of_decide_eq_true h), if_pos h, List.head?_cons]
    · have h' : ¬(statusAt s (s.filesQueue.getD ((s.currentFileIndex + i) % n) "")
          ≠ FileStatus.completed) :=
        of_decide_eq_false (Bool.not_eq_true _ ▸ h)
      rw [if_neg h', if_neg h]
      exact ih (i + 1)

theorem filter_eq_cons_split {α : Type} (p : α → Bool) :
    ∀ (l : List α) (a : α) (as : List α), l.filter p = a :: as →
      ∃ l₁ l₂, l = l₁ ++ a :: l₂ ∧ (∀ x ∈ l₁, p x = false) ∧ p a = true ∧
        l₂.filter p = as := by
  intro l
  induction l with
  | nil => intro a as h; simp at h
  | cons x xs ih =>
    intro a as h
    rw [List.filter_cons] at h
    by_cases hx : p x
    · rw [if_pos hx] at h
      injection h with h1 h2
      subst h1
      exact ⟨[], xs, rfl, by intro y hy; simp at hy, hx, h2⟩
    · rw [if_neg hx] at h
      obtain ⟨l₁, l₂, rfl, hl₁, hpa, hl₂⟩ := ih a as h
      refine ⟨x :: l₁, l₂, rfl, ?_, hpa, hl₂⟩
      intro y hy
      rcases List.mem_cons.mp hy with rfl | hy'
      · simpa using hx
      · exact hl₁ y hy'

theorem filter_range_getD (q : List String) (p : String → Bool) :
    ((List.range q.length).filter (fun j => p (q.getD j ""))).map (fun j => q.getD j "") =
      q.filter p := by
  induction q with
  | nil => simp
  | cons a t ih =>
    have hcomp : ∀ j, ((fun j => p ((a :: t).getD j "")) ∘ Nat.succ) j = p (t.getD j "") := by
      intro j; rfl
    rw [List.length_cons, List.range_succ_eq_map, List.filter_cons]
    by_cases hp : p a
    · rw [if_pos (by simpa using hp), List.map_cons, List.filter_map,
        List.filter_congr (fun j _ => hcomp j), List.map_map]
      rw [show ((fun j => (a :: t).getD j "") ∘ Nat.succ) = (fun j => t.getD j "") from rfl]
      rw [show (a :: t).getD 0 "" = a from rfl]
      rw [List.filter_cons_of_pos hp]
      congr 1
    · rw [if_neg (by simpa using hp), List.filter_map,
        List.filter_congr (fun j _ => hcomp j), List.map_map]
      rw [show ((fun j => (a :: t).getD j "") ∘ Nat.succ) = (fun j => t.getD j "") from rfl]
      rw [List.filter_cons_of_neg (by simpa using hp)]
      exact ih

theorem pick_cons (s : FileWatcherService) (idx : Nat) (rest : List Nat)
    (hr : ridx s = idx :: rest) :
    pickNextFile s = (some (s.filesQueue.getD idx ""),
      { s with currentFileIndex := (idx + 1) % s.filesQueue.length })
    ∧ ridx { s with currentFileIndex := (idx + 1) % s.filesQueue.length } =
        rest ++ [idx] := by
  obtain ⟨A, B, hC, hA, hpidx, hB⟩ :=
    filter_eq_cons_split (eligB s) (cyc s.currentFileIndex s.filesQueue.length) idx rest hr
  have hlenC : (cyc s.currentFileIndex s.filesQueue.length).length = s.filesQueue.length :=
    cycFrom_length _ _ _
  have hsum : s.filesQueue.length = A.length + (B.length + 1) := by
    rw [hC] at hlenC
    simp only [List.length_append, List.length_cons] at hlenC
    omega
  have hn : s.filesQueue.length ≠ 0 := by omega
  have hnpos : 0 < s.filesQueue.length := by omega
  have hi0 : A.length < s.filesQueue.length := by omega
  have hgetC : (cyc s.currentFileIndex s.filesQueue.length)[A.length]? =
      some ((s.currentFileIndex + A.length) % s.filesQueue.length) := by
    show (cycFrom _ _ _)[A.length]? = _
    unfold cycFrom
    rw [List.getElem?_map, List.getElem?_range hi0]
    rfl
  have hgetC' : (cyc s.currentFileIndex s.filesQueue.length)[A.length]? = some idx := by
    rw [hC, List.getElem?_append_right (Nat.le_refl A.length), Nat.sub_self]
    simp
  have hidx : idx = (s.currentFileIndex + A.length) % s.filesQueue.length := by
    have := hgetC'.symm.trans hgetC
    exact Option.some.inj this
  have hr' : (cyc s.currentFileIndex s.filesQueue.length).filter (eligB s) =
      idx :: rest := hr
  have hpl : pickLoop s s.filesQueue.length s.filesQueue.length 0 = some idx := by
    rw [pickLoop_eq_head]
    show ((cyc s.currentFileIndex s.filesQueue.length).filter (eligB s)).head? = some idx
    rw [hr']
    rfl
  constructor
  · rw [pickNextFile, if_neg hn, hpl]
  · show (cyc ((idx + 1) % s.filesQueue.length) s.filesQueue.length).filter (eligB s) =
      rest ++ [idx]
    have e1 : cyc ((idx + 1) % s.filesQueue.length) s.filesQueue.length =
        cyc (idx + 1) s.filesQueue.length := cyc_mod _ _
    have e2 : cyc (idx + 1) s.filesQueue.length =
        cyc (s.currentFileIndex + A.length + 1) s.filesQueue.length := by
      rw [hidx]
      exact cycFrom_mod_add (s.currentFileIndex + A.length) 1 _ _
    have e3 : cyc (s.currentFileIndex + A.length + 1) s.filesQueue.length =
        (cyc s.currentFileIndex s.filesQueue.length).drop (A.length + 1) ++
        (cyc s.currentFileIndex s.filesQueue.length).take (A.length + 1) := by
      have := cyc_rotk s.currentFileIndex s.filesQueue.length hnpos (A.length + 1) (by omega)
      rw [show s.currentFileIndex + (A.length + 1) = s.currentFileIndex + A.length + 1
        by omega] at this
      exact this
    have hC2 : cyc s.currentFileIndex s.filesQueue.length = (A ++ [idx]) ++ B := by
      rw [hC]
      simp
    have e4 : (cyc s.currentFileIndex s.filesQueue.length).drop (A.length + 1) = B := by
      rw [hC2, show A.length + 1 = (A ++ [idx]).length by simp, List.drop_left]
    have e5 : (cyc s.currentFileIndex s.filesQueue.length).take (A.length + 1) = A ++ [idx] := by
      rw [hC2, show A.length + 1 = (A ++ [idx]).length by simp, List.take_left]
    rw [e1, e2, e3, e4, e5, List.filter_append, List.filter_append, hB]
    have e6 : A.filter (eligB s) = [] :=
      List.filter_eq_nil_iff.mpr (fun x hx => by rw [hA x hx]; simp)
    have e7 : [idx].filter (eligB s) = [idx] := by
      rw [List.filter_cons_of_pos hpidx]
      rfl
    rw [e6, e7]
    simp

theorem pickN_ridx (q0 : List String) :
    ∀ (k : Nat) (s : FileWatcherService), s.filesQueue = q0 →
      k ≤ (ridx s).length →
      (pickN s k).1 = ((ridx s).take k).map (fun j => some (q0.getD j "")) := by
  intro k
  induction k with
  | zero => intro s _ _; simp [pickN]
  | succ k ih =>
    intro s hq hk
    cases hcase : ridx s with
    | nil => rw [hcase] at hk; simp at hk
    | cons idx rest =>
      obtain ⟨hpick, hridx'⟩ := pick_cons s idx rest hcase
      rw [hcase] at hk
      simp only [List.length_cons] at hk
      have hk' : k ≤ (ridx { s with currentFileIndex :=
          (idx + 1) % s.filesQueue.length }).length := by
        rw [hridx']
        simp only [List.length_append, List.length_cons, List.length_nil]
        omega
      have ihs := ih { s with currentFileIndex := (idx + 1) % s.filesQueue.length } hq hk'
      simp only [pickN]
      rw [hpick]
      show some (s.filesQueue.getD idx "") ::
      (pickN { s with currentFileIndex := (idx + 1) % s.filesQueue.length } k).1 = _
      rw [ihs, hridx']
      have htk : (rest ++ [idx]).take k = rest.take k :=
        List.take_append_of_le_length (by omega)
      rw [htk, List.take_succ_cons, List.map_cons, hq]

/-- Claim C6 (round-robin fairness): if the queue has no duplicate
names and `N` is the number of queued files whose status is not
`completed`, then — statuses and queue being unchanged during the
pass, which consists of `N` consecutive `pickNextFile` calls starting
from the stored cursor, wherever it points — the `N` calls all succeed
and return each of the `N` non-completed files exactly once (the result
list is duplicate-free and its members are exactly the queued
non-completed files). -/
theorem roundRobin_fair (s : FileWatcherService) (hnd : s.filesQueue.Nodup) :
    ∃ l : List String,
      (pickN s ((s.filesQueue.filter
        (fun f => decide (statusAt s f ≠ FileStatus.completed))).length)).1 = l.map some
      ∧ l.Nodup
      ∧ ∀ f, f ∈ l ↔ (f ∈ s.filesQueue ∧ statusAt s f ≠ FileStatus.completed) := by
  have hperm1 : (ridx s).Perm
      ((List.range s.filesQueue.length).filter (eligB s)) :=
    (cyc_perm s.currentFileIndex s.filesQueue.length).filter (eligB s)
  have hmapeq : ((List.range s.filesQueue.length).filter (eligB s)).map
      (fun j => s.filesQueue.getD j "") =
      s.filesQueue.filter (fun f => decide (statusAt s f ≠ FileStatus.completed)) :=
    filter_range_getD s.filesQueue (fun f => decide (statusAt s f ≠ FileStatus.completed))
  have hlenN : (ridx s).length = (s.filesQueue.filter
      (fun f => decide (statusAt s f ≠ FileStatus.completed))).length := by
    rw [hperm1.length_eq, ← hmapeq, List.length_map]
  refine ⟨(ridx s).map (fun j => s.filesQueue.getD j ""), ?_, ?_, ?_⟩
  · rw [pickN_ridx s.filesQueue _ s rfl (by omega), ← hlenN, List.take_length,
      List.map_map]
    rfl
  · have hfil : (s.filesQueue.filter
        (fun f => decide (statusAt s f ≠ FileStatus.completed))).Nodup :=
      hnd.filter _
    have hpermL := hperm1.map (fun j => s.filesQueue.getD j "")
    rw [hmapeq] at hpermL
    exact hpermL.nodup_iff.mpr hfil
  · intro f
    have hpermL := hperm1.map (fun j => s.filesQueue.getD j "")
    rw [hmapeq] at hpermL
    rw [hpermL.mem_iff, List.mem_filter, decide_eq_true_eq]

theorem roundRobin_fair_witness :
    ∃ l : List String,
      (pickN exService ((exService.filesQueue.filter
        (fun f => decide (statusAt exService f ≠ FileStatus.completed))).length)).1 =
          l.map some
      ∧ l.Nodup
      ∧ ∀ f, f ∈ l ↔ (f ∈ exService.filesQueue ∧
          statusAt exService f ≠ FileStatus.completed) :=
  roundRobin_fair exService (by decide)

end BulkRR
